import Mathlib

/-!
Verification of the distributed-logs repository (Sant470/distributed-logs).

Shallow embedding of:
- the in-memory `server.Log` (Record / Append / Read),
- the `Replicator` (Join / Leave / Close and the per-peer replicate loop),
- the `Authorizer` and the log-service facade,
- the segmented `log.Log` (Append / Read / Truncate), which is modelled
  from the spec because only its tests are present in the repository.
-/

namespace MemLog

/-- `server.Record`: a string payload and a Go `int` offset (modelled as `Int`;
the magnitudes involved never approach 2^63, so overflow is irrelevant). -/
structure Record where
  value : String
  offset : Int
deriving DecidableEq, Repr

/-- `server.Log`: an in-memory slice of records guarded by a RWMutex.
The mutex only serializes the two methods, so the sequential model is a list. -/
structure Log where
  records : List Record
deriving DecidableEq, Repr

/-- `server.NewLog()`: the zero-value log. -/
def NewLog : Log := ⟨[]⟩

/-- `server.Log.Append`: overwrites the record's offset with `len(l.records)`,
appends it, and returns the assigned offset (the error is always nil). -/
def Log.Append (l : Log) (r : Record) : Int × Log :=
  let r' : Record := { r with offset := (l.records.length : Int) }
  (r'.offset, ⟨l.records ++ [r']⟩)

/-- Result of `server.Log.Read`. `crash` models the Go runtime panic raised by
`l.records[offset]` when `offset` is negative (the guard only checks
`offset >= len(l.records)`). -/
inductive ReadResult where
  | ok (r : Record)
  | errOffsetNotFound
  | crash
deriving DecidableEq, Repr

/-- `server.Log.Read`: returns `ErrorOffsetNotFound` when
`offset >= len(l.records)`; otherwise indexes the slice, which panics when the
offset is negative. -/
def Log.Read (l : Log) (offset : Int) : ReadResult :=
  if (l.records.length : Int) ≤ offset then .errOffsetNotFound
  else if offset < 0 then .crash
  else
    match l.records.get? offset.toNat with
    | some r => .ok r
    | none => .crash

/-- Folds a sequence of `Append` calls over a log (used to express "subsequent
appends" between an append and the read that revisits it). -/
def appendAll (l : Log) (rs : List Record) : Log :=
  rs.foldl (fun acc r => (acc.Append r).2) l

/-- Runs a sequence of `Append` calls and collects the returned offsets. -/
def runAppends (l : Log) : List Record → Log × List Int
  | [] => (l, [])
  | r :: rs =>
    let step := l.Append r
    let rest := runAppends step.2 rs
    (rest.1, step.1 :: rest.2)

/-- States reachable from the empty log by `Append` calls; `Read` takes only a
read lock and never mutates the record slice, so it is not a transition. -/
inductive Reachable : Log → Prop where
  | empty : Reachable NewLog
  | append (l : Log) (r : Record) : Reachable l → Reachable (l.Append r).2

theorem appendAll_records (rs : List Record) (l : Log) :
    ∃ suffix, (appendAll l rs).records = l.records ++ suffix := by
  induction rs generalizing l with
  | nil => exact ⟨[], by simp [appendAll]⟩
  | cons r rs ih =>
    obtain ⟨suf, hsuf⟩ := ih (l.Append r).2
    refine ⟨{ r with offset := (l.records.length : Int) } :: suf, ?_⟩
    simpa [appendAll, Log.Append] using hsuf

theorem runAppends_offsets (rs : List Record) (l : Log) :
    (runAppends l rs).2 =
      (List.range rs.length).map (fun n => ((l.records.length + n : Nat) : Int)) := by
  induction rs generalizing l with
  | nil => simp [runAppends]
  | cons r rs ih =>
    simp only [runAppends, ih, Log.Append, List.length_cons,
      List.range_succ_eq_map, List.map_cons, List.map_map]
    congr 1
    apply List.map_congr_left
    intro n _
    simp only [Function.comp_apply, List.length_append, List.length_cons,
      List.length_nil]
    push_cast
    ring

theorem reachable_invariant (l : Log) (h : Reachable l) :
    ∀ i rec, l.records.get? i = some rec → rec.offset = (i : Int) := by
  induction h with
  | empty => intro i rec h; simp [NewLog] at h
  | append l' r _ ih =>
    intro i rec hget
    simp only [Log.Append] at hget
    rcases lt_trichotomy i l'.records.length with hlt | heq | hgt
    · rw [List.get?_append hlt] at hget
      exact ih i rec hget
    · subst heq
      rw [List.get?_concat_length] at hget
      cases hget
      rfl
    · rw [List.get?_eq_none.mpr (by simp; omega)] at hget
      cases hget

/-- A reachable state used to witness the invariant theorems: the empty log
after appending two records (whose caller-supplied offsets are junk). -/
def logTwo : Log := ((NewLog.Append ⟨"a", 99⟩).2.Append ⟨"b", -5⟩).2

/-- C1: for every record R appended to the log with assigned offset O, a
subsequent `Read(O)` — after any further sequence of appends; the in-memory
log has no truncation operation — returns a record whose payload is
byte-identical to R's payload (indeed exactly the stored record, whose value
is R's value). -/
theorem append_read_roundtrip (l : Log) (r : Record) (rs : List Record) :
    (appendAll (l.Append r).2 rs).Read (l.Append r).1 =
      ReadResult.ok ⟨r.value, (l.records.length : Int)⟩ := by
  obtain ⟨suf, hsuf⟩ := appendAll_records rs (l.Append r).2
  have hr : (l.Append r).2.records
      = l.records ++ [⟨r.value, (l.records.length : Int)⟩] := rfl
  rw [hr] at hsuf
  have hget : ((l.records ++ [(⟨r.value, (l.records.length : Int)⟩ : Record)])
        ++ suf).get? l.records.length
      = some ⟨r.value, (l.records.length : Int)⟩ := by
    rw [List.get?_append (by simp)]
    exact List.get?_concat_length _ _
  have h1 : (l.Append r).1 = (l.records.length : Int) := rfl
  rw [h1, Log.Read, hsuf]
  rw [if_neg (by simp only [List.length_append, List.length_cons,
    List.length_nil]; push_cast; omega)]
  rw [if_neg (by omega)]
  simp only [Int.toNat_natCast, hget]

/-- C2: running any sequence of appends from the empty log returns offsets
0, 1, ..., N-1 in order (the Nth append, 0-indexed, returns offset N), and
the offset field supplied by the caller inside a record is ignored: `Append`
yields the same result whatever that field holds. -/
theorem nth_append_assigns_offset (rs : List Record) :
    (runAppends NewLog rs).2
      = (List.range rs.length).map (fun n : Nat => (n : Int)) ∧
    ∀ (l : Log) (r : Record) (o : Int),
      l.Append { r with offset := o } = l.Append r := by
  constructor
  · rw [runAppends_offsets rs NewLog]
    apply List.map_congr_left
    intro n _
    simp [NewLog]
  · intro l r o
    rfl

/-- C3 counterexample: the claim says every invalid offset — including
negative ones — makes `Read` return the offset-out-of-range error.  In the
code the guard is only `offset >= len(l.records)`, so `Read(-1)` reaches
`l.records[-1]` and panics instead of returning the error. -/
theorem read_negative_offset_crashes :
    NewLog.Read (-1) = ReadResult.crash ∧
    NewLog.Read (-1) ≠ ReadResult.errOffsetNotFound := by
  exact ⟨by decide, by decide⟩

/-- C3 (amended): `Read(offset)` returns the offset-not-found error (and no
record) exactly for offsets at or above the number of records
(HighestOffset+1); a negative offset instead causes a runtime
index-out-of-range panic rather than an error return. -/
theorem read_out_of_range (l : Log) (o : Int) :
    ((l.records.length : Int) ≤ o → l.Read o = ReadResult.errOffsetNotFound) ∧
    (o < 0 → l.Read o = ReadResult.crash) := by
  constructor
  · intro h
    simp [Log.Read, h]
  · intro h
    have h0 : (0 : Int) ≤ (l.records.length : Int) := Int.natCast_nonneg _
    have h1 : ¬ ((l.records.length : Int) ≤ o) := by omega
    simp [Log.Read, h1, h]

/-- Witness for `read_out_of_range` at the empty log, offsets 1 and -1. -/
theorem read_out_of_range_witness :
    ((NewLog.records.length : Int) ≤ 1 ∧
      NewLog.Read 1 = ReadResult.errOffsetNotFound) ∧
    ((-1 : Int) < 0 ∧ NewLog.Read (-1) = ReadResult.crash) :=
  ⟨⟨by decide, (read_out_of_range NewLog 1).1 (by decide)⟩,
   ⟨by decide, (read_out_of_range NewLog (-1)).2 (by decide)⟩⟩

/-- C10: in every state reachable by `Append`/`Read` calls from the empty log
(`Read` never mutates the state), the record stored at index i carries
offset i, and consequently every successful `Read(o)` returns a record whose
offset field equals o. -/
theorem reachable_offset_eq_index (l : Log) (h : Reachable l) :
    (∀ i rec, l.records.get? i = some rec → rec.offset = (i : Int)) ∧
    (∀ o rec, l.Read o = ReadResult.ok rec → rec.offset = o) := by
  refine ⟨reachable_invariant l h, ?_⟩
  intro o rec hread
  rw [Log.Read] at hread
  by_cases h1 : (l.records.length : Int) ≤ o
  · rw [if_pos h1] at hread
    cases hread
  · rw [if_neg h1] at hread
    by_cases h2 : o < 0
    · rw [if_pos h2] at hread
      cases hread
    · rw [if_neg h2] at hread
      cases hg : l.records.get? o.toNat with
      | none => rw [hg] at hread; cases hread
      | some r' =>
        rw [hg] at hread
        cases hread
        rw [reachable_invariant l h o.toNat rec hg]
        omega

/-- Witness for `reachable_offset_eq_index` at a concrete two-record state. -/
theorem reachable_offset_eq_index_witness :
    Reachable logTwo ∧ (Record.mk "b" 1).offset = (1 : Int) :=
  have h : Reachable logTwo :=
    Reachable.append _ _ (Reachable.append _ _ Reachable.empty)
  ⟨h, (reachable_offset_eq_index logTwo h).2 1 ⟨"b", 1⟩ (by decide)⟩

end MemLog

namespace Repl

/-- `api.Record` as the replicator and facade see it: a byte payload and a
uint64 offset (magnitudes never approach 2^64 here, so plain `Nat`). -/
structure ApiRecord where
  value : List Nat
  offset : Nat
deriving DecidableEq, Repr

/-- A background replication task started by `Replicator.Join`: the peer
address dialled and the offset of the `ConsumeStream` request it opens —
hard-coded to 0 in `replicate` (`ConsumeRequest{Offset: 0}`). -/
structure RepTask where
  addr : String
  startOffset : Nat
deriving DecidableEq, Repr

/-- `Replicator` state under its mutex.  `servers` models the keys of the
`map[string]chan struct\x7b\x7d` (a peer entry exists iff a task was started
for it and not yet removed); `stopSignaled` records the names whose stop
channel has been closed by `Leave`; `tasks` records the goroutines spawned by
`Join`.  The lazy `init()` is the zero-value state, so it is left implicit. -/
structure Replicator where
  servers : List String
  tasks : List RepTask
  stopSignaled : List String
  closed : Bool
deriving DecidableEq, Repr

/-- `Replicator.Join`: returns unchanged when closed, or when a task for
`name` is already tracked; otherwise registers the peer and spawns
`replicate(addr, stopCh)`, whose consume stream starts at offset 0. -/
def Replicator.Join (r : Replicator) (name addr : String) : Replicator :=
  if r.closed then r
  else if r.servers.contains name then r
  else { r with servers := r.servers ++ [name],
                tasks := r.tasks ++ [⟨addr, 0⟩] }

/-- `Replicator.Leave`: when `name` is tracked, closes its stop channel and
deletes the entry; otherwise does nothing. -/
def Replicator.Leave (r : Replicator) (name : String) : Replicator :=
  if r.servers.contains name then
    { r with servers := r.servers.erase name,
             stopSignaled := r.stopSignaled ++ [name] }
  else r

/-- `Replicator.Close`: marks the replicator closed, closes the global close
channel, and drops the server map; a second call returns unchanged. -/
def Replicator.Close (r : Replicator) : Replicator :=
  if r.closed then r
  else { r with closed := true, servers := [] }

/-- One observation of the `select` in the replicate loop: the global close
channel fires, the peer's stop channel fires, or a record arrives on the
inner receive channel.  A list of these events is one scheduling of the
loop's inputs. -/
inductive RepEvent where
  | closeSig
  | stopSig
  | record (rec : ApiRecord)
deriving DecidableEq, Repr

/-- The `for/select` loop of `Replicator.replicate`: returns on the close or
stop signal; on a received record calls `LocalServer.Produce` (modelled by
`produceOk`, the service facade) and returns on a produce error.  The result
is the list of records successfully appended to the local log. -/
def replicateLoop (produceOk : ApiRecord → Bool) : List RepEvent → List ApiRecord
  | [] => []
  | RepEvent.closeSig :: _ => []
  | RepEvent.stopSig :: _ => []
  | RepEvent.record rec :: rest =>
    if produceOk rec then rec :: replicateLoop produceOk rest else []

/-- `Replicator.replicate` including its connect phase: a dial failure or a
`ConsumeStream` setup failure logs and returns before any record is
produced; otherwise the loop runs over the schedule. -/
def replicateTask (dialOk streamOk : Bool) (produceOk : ApiRecord → Bool)
    (events : List RepEvent) : List ApiRecord :=
  if dialOk then
    if streamOk then replicateLoop produceOk events else []
  else []

theorem replicateLoop_stopSig (produceOk : ApiRecord → Bool)
    (evs1 evs2 : List RepEvent) :
    replicateLoop produceOk (evs1 ++ RepEvent.stopSig :: evs2)
      = replicateLoop produceOk evs1 := by
  induction evs1 with
  | nil => rfl
  | cons e rest ih =>
    cases e with
    | closeSig => rfl
    | stopSig => rfl
    | record rec =>
      simp only [List.cons_append, replicateLoop, List.append_eq, ih]

theorem replicateLoop_closeSig (produceOk : ApiRecord → Bool)
    (evs1 evs2 : List RepEvent) :
    replicateLoop produceOk (evs1 ++ RepEvent.closeSig :: evs2)
      = replicateLoop produceOk evs1 := by
  induction evs1 with
  | nil => rfl
  | cons e rest ih =>
    cases e with
    | closeSig => rfl
    | stopSig => rfl
    | record rec =>
      simp only [List.cons_append, replicateLoop, List.append_eq, ih]

theorem replicateLoop_produce_failure (produceOk : ApiRecord → Bool)
    (rec : ApiRecord) (hfail : produceOk rec = false)
    (evs1 evs2 : List RepEvent) :
    replicateLoop produceOk (evs1 ++ RepEvent.record rec :: evs2)
      = replicateLoop produceOk evs1 := by
  induction evs1 with
  | nil => simp [replicateLoop, hfail]
  | cons e rest ih =>
    cases e with
    | closeSig => rfl
    | stopSig => rfl
    | record rec' =>
      simp only [List.cons_append, replicateLoop, List.append_eq, ih]

theorem replicateLoop_all_ok (produceOk : ApiRecord → Bool)
    (recs : List ApiRecord) (h : ∀ rec ∈ recs, produceOk rec = true) :
    replicateLoop produceOk (recs.map RepEvent.record) = recs := by
  induction recs with
  | nil => rfl
  | cons rec rest ih =>
    simp only [List.map_cons, replicateLoop, h rec (by simp)]
    simp only [if_true]
    rw [ih (fun x hx => h x (by simp [hx]))]

/-- C5: `Join(peerID, peerAddress)` is a no-op (state unchanged, no task
started) when the replicator is closed or a task for the peer is already
tracked; otherwise it registers the peer and starts a background task whose
consume stream begins at offset 0, and the replicate loop appends every
received record to the local log through the service facade (`produceOk`
models `LocalServer.Produce`). -/
theorem Join_spec (r : Replicator) (name addr : String)
    (produceOk : ApiRecord → Bool) :
    (r.closed = true → r.Join name addr = r) ∧
    (r.servers.contains name = true → r.Join name addr = r) ∧
    (r.closed = false → r.servers.contains name = false →
      (r.Join name addr).servers = r.servers ++ [name] ∧
      (r.Join name addr).tasks = r.tasks ++ [⟨addr, 0⟩]) ∧
    (∀ recs : List ApiRecord, (∀ rec ∈ recs, produceOk rec = true) →
      replicateLoop produceOk (recs.map RepEvent.record) = recs) := by
  refine ⟨?_, ?_, ?_, fun recs h => replicateLoop_all_ok produceOk recs h⟩
  · intro h
    simp [Replicator.Join, h]
  · intro h
    have hm : name ∈ r.servers := by simpa using h
    simp [Replicator.Join, hm]
  · intro h1 h2
    have hm : name ∉ r.servers := by simpa using h2
    simp [Replicator.Join, h1, hm]

/-- Witness for `Join_spec`: joining a fresh replicator registers peer1 and
records a task that consumes from offset 0. -/
theorem Join_spec_witness :
    ((Replicator.mk [] [] [] false).Join "peer1" "addr1").servers
        = [] ++ ["peer1"] ∧
    ((Replicator.mk [] [] [] false).Join "peer1" "addr1").tasks
        = [] ++ [⟨"addr1", 0⟩] :=
  (Join_spec ⟨[], [], [], false⟩ "peer1" "addr1" (fun _ => true)).2.2.1
    rfl (by decide)

/-- C6: any I/O error on the connect, stream-receive, or produce path
terminates the peer's task with no automatic retry: a dial or consume-stream
failure produces nothing, and after a failed `Produce` the remainder of the
schedule is never processed — the task's output equals what it had produced
before the failing record, however that remainder looks. -/
theorem replicate_error_aborts (dialOk streamOk : Bool)
    (produceOk : ApiRecord → Bool) (rec : ApiRecord)
    (evs1 evs2 : List RepEvent) :
    (replicateTask false streamOk produceOk evs1 = []) ∧
    (replicateTask dialOk false produceOk evs1 = []) ∧
    (produceOk rec = false →
      replicateLoop produceOk (evs1 ++ RepEvent.record rec :: evs2)
        = replicateLoop produceOk evs1) := by
  refine ⟨rfl, ?_,
    fun h => replicateLoop_produce_failure produceOk rec h evs1 evs2⟩
  cases dialOk <;> simp [replicateTask]

/-- Witness for `replicate_error_aborts`: a task whose every `Produce` fails
terminates at the first record and ignores the rest of its schedule. -/
theorem replicate_error_aborts_witness :
    replicateLoop (fun _ => false)
        ([] ++ RepEvent.record ⟨[1], 0⟩ :: [RepEvent.record ⟨[2], 1⟩])
      = replicateLoop (fun _ => false) [] :=
  (replicate_error_aborts true true (fun _ => false) ⟨[1], 0⟩ []
    [RepEvent.record ⟨[2], 1⟩]).2.2 rfl

/-- C7: `Leave(peerID)` removes the peer's tracking entry and closes its stop
channel; it is idempotent on unknown peers (state unchanged, nil error); and
once a task observes the stop signal it produces nothing further: records
after the stop signal in its schedule are never produced. -/
theorem Leave_spec (r : Replicator) (name : String)
    (produceOk : ApiRecord → Bool) (evs1 evs2 : List RepEvent) :
    (r.servers.contains name = false → r.Leave name = r) ∧
    ((r.Leave name).servers = r.servers.erase name) ∧
    (r.servers.contains name = true →
      (r.Leave name).stopSignaled = r.stopSignaled ++ [name]) ∧
    (replicateLoop produceOk (evs1 ++ RepEvent.stopSig :: evs2)
      = replicateLoop produceOk evs1) := by
  refine ⟨?_, ?_, ?_, replicateLoop_stopSig produceOk evs1 evs2⟩
  · intro h
    have hm : name ∉ r.servers := by simpa using h
    simp [Replicator.Leave, hm]
  · rw [Replicator.Leave]
    by_cases h : r.servers.contains name
    · rw [if_pos h]
    · rw [if_neg h, List.erase_of_not_mem (by simpa using h)]
  · intro h
    have hm : name ∈ r.servers := by simpa using h
    simp [Replicator.Leave, hm]

/-- Witness for `Leave_spec`: leaving an unknown peer changes nothing, and
leaving a tracked peer erases it and signals its stop channel. -/
theorem Leave_spec_witness :
    ((Replicator.mk ["p1"] [] [] false).Leave "p2"
        = Replicator.mk ["p1"] [] [] false) ∧
    ((Replicator.mk ["p1"] [] [] false).Leave "p1").stopSignaled
        = [] ++ ["p1"] :=
  ⟨(Leave_spec ⟨["p1"], [], [], false⟩ "p2" (fun _ => true) [] []).1
      (by decide),
   (Leave_spec ⟨["p1"], [], [], false⟩ "p1" (fun _ => true) [] []).2.2.1
      (by decide)⟩

/-- C8: after `Close()` the replicator is marked closed, every subsequent
`Join` is a no-op that starts no new task, and a running task stops
producing once it observes the close signal on its next loop iteration:
records after the close signal in its schedule are never produced. -/
theorem Close_spec (r : Replicator) (name addr : String)
    (produceOk : ApiRecord → Bool) (evs1 evs2 : List RepEvent) :
    ((r.Close).closed = true) ∧
    ((r.Close).Join name addr = r.Close) ∧
    (replicateLoop produceOk (evs1 ++ RepEvent.closeSig :: evs2)
      = replicateLoop produceOk evs1) := by
  have hclosed : (r.Close).closed = true := by
    rw [Replicator.Close]
    by_cases h : r.closed
    · rw [if_pos h]
      exact h
    · rw [if_neg h]
  refine ⟨hclosed, ?_, replicateLoop_closeSig produceOk evs1 evs2⟩
  rw [Replicator.Join, if_pos hclosed]

end Repl

namespace Auth

/-- Outcome of `Authorizer.Authorize`: the casbin enforcer's own error
returned verbatim, a `codes.PermissionDenied` status error carrying the
formatted message, or nil. -/
inductive AuthResult where
  | enforceError (e : String)
  | permissionDenied (msg : String)
  | allowed
deriving DecidableEq, Repr

/-- The casbin enforcer is an external library loaded from model/policy
files; it is abstracted as a function from (subject, object, action) to
either an error or a boolean policy decision. -/
abbrev Enforce := String → String → String → Except String Bool

/-- `Authorizer.Authorize`: forwards an enforcer error; when the decision is
false, returns a permission-denied status whose message is
`subject + " not permitted to " + action + " to " + object`; otherwise nil. -/
def Authorize (enforce : Enforce) (subject object action : String) :
    AuthResult :=
  match enforce subject object action with
  | Except.error e => AuthResult.enforceError e
  | Except.ok valid =>
    if valid then AuthResult.allowed
    else AuthResult.permissionDenied
      (subject ++ " not permitted to " ++ action ++ " to " ++ object)

/-- Modelled from the spec: the log-service facade (gRPC server) is not
under src/ — only its tests are.  Per §4.6/§6 the facade invokes
`Authorize(callerIdentity, resource, action)` before `Produce` and maps a
denial to a permission-denied service error without performing the storage
operation; on nil it performs the append and returns the assigned offset. -/
def facadeProduce (enforce : Enforce) (subject object action : String)
    (st : List Repl.ApiRecord) (rec : Repl.ApiRecord) :
    List Repl.ApiRecord × Except AuthResult Nat :=
  match Authorize enforce subject object action with
  | AuthResult.allowed =>
    (st ++ [{ rec with offset := st.length }], Except.ok st.length)
  | res => (st, Except.error res)

/-- C9: for every caller identity, resource and action, a policy denial
makes `Authorize` return a permission-denied error, and the facade surfaces
it to the caller while leaving the log untouched (no storage operation); a
policy permit makes `Authorize` return nil. -/
theorem authorize_spec (enforce : Enforce) (s o a : String)
    (st : List Repl.ApiRecord) (rec : Repl.ApiRecord) :
    (enforce s o a = Except.ok false →
      Authorize enforce s o a
        = AuthResult.permissionDenied
            (s ++ " not permitted to " ++ a ++ " to " ++ o) ∧
      (facadeProduce enforce s o a st rec).1 = st ∧
      (facadeProduce enforce s o a st rec).2
        = Except.error (AuthResult.permissionDenied
            (s ++ " not permitted to " ++ a ++ " to " ++ o))) ∧
    (enforce s o a = Except.ok true →
      Authorize enforce s o a = AuthResult.allowed) := by
  constructor
  · intro h
    refine ⟨by simp [Authorize, h], ?_, ?_⟩ <;>
      simp [facadeProduce, Authorize, h]
  · intro h
    simp [Authorize, h]

/-- Witness for `authorize_spec` under an all-deny and an all-allow policy. -/
theorem authorize_spec_witness :
    (Authorize (fun _ _ _ => Except.ok false) "nobody" "*" "produce"
        = AuthResult.permissionDenied
            ("nobody" ++ " not permitted to " ++ "produce" ++ " to " ++ "*") ∧
      (facadeProduce (fun _ _ _ => Except.ok false) "nobody" "*" "produce"
          [] ⟨[1], 0⟩).1 = [] ∧
      (facadeProduce (fun _ _ _ => Except.ok false) "nobody" "*" "produce"
          [] ⟨[1], 0⟩).2
        = Except.error (AuthResult.permissionDenied
            ("nobody" ++ " not permitted to " ++ "produce" ++ " to " ++ "*"))) ∧
    Authorize (fun _ _ _ => Except.ok true) "root" "*" "produce"
        = AuthResult.allowed :=
  ⟨(authorize_spec (fun _ _ _ => Except.ok false) "nobody" "*" "produce"
      [] ⟨[1], 0⟩).1 rfl,
   (authorize_spec (fun _ _ _ => Except.ok true) "root" "*" "produce"
      [] ⟨[1], 0⟩).2 rfl⟩

end Auth

namespace SegLog

/-- Modelled from the spec: the segmented `log` package (Store, Index,
Segment, Log) is not under src/ — only `log_test.go` is.  A segment owns the
contiguous offsets `[baseOffset, baseOffset + payloads.length)`; its store
holds one `[4-byte length][payload]` entry per record and its index one
12-byte `(relativeOffset, position)` entry per record (§3). -/
structure Seg where
  baseOffset : Nat
  payloads : List (List Nat)
deriving DecidableEq, Repr

/-- The offset the segment assigns to its next append. -/
def Seg.nextOffset (s : Seg) : Nat := s.baseOffset + s.payloads.length

/-- Store file size: 4-byte length prefix plus payload, per record. -/
def Seg.storeBytes (s : Seg) : Nat :=
  (s.payloads.map (fun p => 4 + p.length)).sum

/-- Index file size: one 12-byte entry per record. -/
def Seg.indexBytes (s : Seg) : Nat := 12 * s.payloads.length

/-- Configured limits `MaxStoreBytes` / `MaxIndexBytes`. -/
structure SegConfig where
  maxStoreBytes : Nat
  maxIndexBytes : Nat
deriving DecidableEq, Repr

/-- `IsMaxed`: store size ≥ MaxStoreBytes or index size ≥ MaxIndexBytes. -/
def Seg.isMaxed (c : SegConfig) (s : Seg) : Bool :=
  decide (c.maxStoreBytes ≤ s.storeBytes)
    || decide (c.maxIndexBytes ≤ s.indexBytes)

/-- Modelled from the spec: the Log is an ordered list of segments, the last
one active. -/
structure Log where
  config : SegConfig
  segments : List Seg
deriving DecidableEq, Repr

/-- A fresh log: one empty segment with baseOffset 0. -/
def NewLog (c : SegConfig) : Log := ⟨c, [⟨0, []⟩]⟩

/-- Modelled from the spec (§4.4): `Append` delegates to the active segment;
if it is maxed it first rolls over to a new segment whose baseOffset is the
current nextOffset.  Returns the updated log and the assigned offset. -/
def Log.append (l : Log) (p : List Nat) : Log × Nat :=
  match l.segments.getLast? with
  | none => (⟨l.config, [⟨0, [p]⟩]⟩, 0)
  | some active =>
    if Seg.isMaxed l.config active then
      (⟨l.config, l.segments ++ [⟨active.nextOffset, [p]⟩]⟩, active.nextOffset)
    else
      (⟨l.config,
        l.segments.dropLast
          ++ [⟨active.baseOffset, active.payloads ++ [p]⟩]⟩,
       active.nextOffset)

/-- Modelled from the spec (§4.4): `Read` searches for the segment whose
range contains the offset and fails with offset-out-of-range (`none`) when
no segment owns it. -/
def Log.read (l : Log) (o : Nat) : Option (List Nat) :=
  match l.segments.find?
      (fun s => decide (s.baseOffset ≤ o) && decide (o < s.nextOffset)) with
  | none => none
  | some s => s.payloads.get? (o - s.baseOffset)

/-- Modelled from the spec (§4.4): `Truncate(lowest)` removes every segment
whose highest offset (`nextOffset - 1`) is strictly less than `lowest`. -/
def Log.truncate (l : Log) (lowest : Nat) : Log :=
  ⟨l.config, l.segments.filter (fun s => ! decide (s.nextOffset - 1 < lowest))⟩

/-- The test configuration: `MaxIndexBytes = 64` with the default
`MaxStoreBytes` of 1024 — "default segment size is large". -/
def testConfig : SegConfig := ⟨1024, 64⟩

/-- The "hello world" payload the scenario appends three times. -/
def hw : List Nat := [104, 101, 108, 108, 111, 32, 119, 111, 114, 108, 100]

/-- The log after three appends of `hw` to a fresh log. -/
def logThree : Log :=
  ((((NewLog testConfig).append hw).1.append hw).1.append hw).1

/-- C4: after three appends to a fresh log, `Truncate(1)` removes only
segments whose maximum offset is strictly below 1; the single segment still
owns offsets 0..2, so no segment is removed and all three records remain
readable.  (The repository's `testTruncate` instead requires `Read(0)` to
return an error here, and its own comment notes the test is failing.) -/
theorem truncate_below_segment_noop :
    (logThree.truncate 1).segments = logThree.segments ∧
    (logThree.truncate 1).read 0 = some hw ∧
    (logThree.truncate 1).read 1 = some hw ∧
    (logThree.truncate 1).read 2 = some hw := by
  decide

end SegLog

